import Mathlib

set_option maxRecDepth 4000000

/-!
Verification of the amortization engine in `src/amoritize.py` (class
`Amoritize`).

The source performs all currency arithmetic on Python `Decimal` values under
the default decimal context: precision 28 significant digits, rounding mode
ROUND_HALF_EVEN.  Every arithmetic operation (add, subtract, multiply,
divide, power) rounds its exact result to 28 significant digits half-to-even;
`quantize(Decimal("0.00"))` rounds to 2 fractional digits half-to-even.
`Decimal(x)` applied to a float or to a `Decimal` converts exactly (the
constructor performs no context rounding).  Decimal values are modelled as
rationals, with the context rounding and the quantize rounding explicit.

The constructor arguments `bal` and `apr` are Python floats, and `apr / 12`,
`apr / 365` are IEEE-754 binary64 divisions performed before conversion to
`Decimal`; binary64 values are modelled as rationals and `roundDouble` as
round-to-nearest, ties-to-even at 53 significant bits (normal range only:
every quantity in scope is far from the overflow and subnormal thresholds).

Modelling assumptions, stated once: `Decimal` power with an integral exponent
is taken to be correctly rounded to context precision (libmpdec computes
integral powers by binary exponentiation at extended precision), and
`quantize` is modelled as total (it raises InvalidOperation only when the
result needs more than 28 digits, i.e. for currency magnitudes of 10^26 and
above, far outside the range in which the program can run at all; the
size hypotheses of the theorems below keep every value inside that range).
-/

/-- Rounds a rational to the nearest integer, ties to even
(the ROUND_HALF_EVEN rule of the default Python decimal context). -/
def roundHalfEven (q : ℚ) : ℤ :=
  let f := ⌊q⌋
  let r := q - f
  if r < 1/2 then f
  else if r > 1/2 then f + 1
  else if f % 2 = 0 then f else f + 1

/-- Monoid power on ℚ by structural recursion, kept bare so that concrete
schedules reduce inside the kernel. -/
def qnpow (q : ℚ) : ℕ → ℚ
  | 0 => 1
  | n+1 => q * qnpow q n

/-- Integer-exponent power on ℚ. -/
def zpowQ (q : ℚ) (e : ℤ) : ℚ :=
  if 0 ≤ e then qnpow q e.toNat else (qnpow q (-e).toNat)⁻¹

/-- Fuel-driven base-`b` discrete logarithm: counts how many times `n` can be
divided by `b` before falling below `b`.  Total and kernel-reducible. -/
def natLogF (b : ℕ) : ℕ → ℕ → ℕ
  | 0, _ => 0
  | fuel+1, n => if n < b then 0 else natLogF b fuel (n / b) + 1

/-- Discrete logarithm `⌊log_b n⌋` for naturals (`0` when `n < b`). -/
def natLog (b n : ℕ) : ℕ := natLogF b n n

/-- Floor logarithm `⌊log_b |q|⌋` of a nonzero rational: the unique `z` with
`b^z ≤ |q| < b^(z+1)`.  Computed from the numerator and denominator
logarithms and corrected by explicit comparisons. -/
def ilogb (b : ℕ) (q : ℚ) : ℤ :=
  let a := q.num.natAbs
  let d := q.den
  let z0 : ℤ := (natLog b a : ℤ) - (natLog b d : ℤ)
  if zpowQ b (z0 + 1) ≤ |q| then z0 + 1
  else if zpowQ b z0 ≤ |q| then z0
  else z0 - 1

/-- Rounds a rational to `p` significant decimal digits, half-to-even: the
context rounding that the default Python decimal context (`prec = 28`)
applies to the exact result of every arithmetic operation. -/
def roundSig (p : ℕ) (q : ℚ) : ℚ :=
  if q = 0 then 0
  else
    let e : ℤ := ilogb 10 q - (p - 1 : ℤ)
    zpowQ 10 e * (roundHalfEven (q * zpowQ 10 (-e)) : ℚ)

/-- Context rounding of the default decimal context: 28 significant digits. -/
def ctxRound (q : ℚ) : ℚ := roundSig 28 q

/-- Models `Decimal.quantize(Decimal("0.00"))`: round to 2 fractional digits,
half-to-even (the default context rounding mode). -/
def quantize2 (q : ℚ) : ℚ := (roundHalfEven (q * 100) : ℚ) / 100

/-- Rounds a rational to the nearest IEEE-754 binary64 value (round to
nearest, ties to even, 53 significant bits; normal range only). -/
def roundDouble (q : ℚ) : ℚ :=
  if q = 0 then 0
  else
    let e : ℤ := ilogb 2 q - 52
    (roundHalfEven (q * zpowQ 2 (-e)) : ℚ) * zpowQ 2 e

/-- Exact value of the Python float closest to `q` (binary64 literal
semantics). -/
def pyFloat (q : ℚ) : ℚ := roundDouble q

/-- Python float division: the exact quotient rounded to binary64. -/
def floatDiv (a b : ℚ) : ℚ := roundDouble (a / b)

/-- Context-rounded decimal addition. -/
def decAdd (a b : ℚ) : ℚ := ctxRound (a + b)

/-- Context-rounded decimal subtraction. -/
def decSub (a b : ℚ) : ℚ := ctxRound (a - b)

/-- Context-rounded decimal multiplication. -/
def decMul (a b : ℚ) : ℚ := ctxRound (a * b)

/-- Context-rounded decimal division; `none` models the DivisionByZero
signal, which is trapped (raised as an exception) under the default
context. -/
def decDiv (a b : ℚ) : Option ℚ :=
  if b = 0 then none else some (ctxRound (a / b))

/-- Context-rounded decimal power with an integral exponent; `none` models
the InvalidOperation and DivisionByZero signals raised for `0 ** k`,
`k ≤ 0`. -/
def decPow (a : ℚ) (k : ℤ) : Option ℚ :=
  if a = 0 ∧ k ≤ 0 then none else some (ctxRound (zpowQ a k))

/-- A calendar date, as built by `datetime.date(year, month, day)`. -/
structure PyDate where
  year : ℤ
  month : ℕ
  day : ℕ
  deriving DecidableEq, Repr

/-- Gregorian leap-year rule. -/
def isLeap (y : ℤ) : Bool := y % 4 = 0 && (y % 100 != 0 || y % 400 = 0)

/-- Number of days in month `m` of year `y`. -/
def daysInMonth (y : ℤ) (m : ℕ) : ℕ :=
  if m = 2 then (if isLeap y then 29 else 28)
  else if m = 4 ∨ m = 6 ∨ m = 9 ∨ m = 11 then 30
  else 31

/-- Models `d + relativedelta(months=+k)`: advance `k` whole calendar months,
clamping the day to the length of the target month. -/
def addMonths (d : PyDate) (k : ℕ) : PyDate :=
  let m0 : ℤ := (d.month : ℤ) - 1 + k
  let y := d.year + m0 / 12
  let m := (m0 % 12).toNat + 1
  ⟨y, m, min d.day (daysInMonth y m)⟩

/-- State of an `Amoritize` instance (its attributes).  The fields `bal`,
`pv`, `mpr`, `dpr` and `total_interest` hold `Decimal` values; `apr` keeps
the raw float. -/
structure Amoritize where
  bal : ℚ
  pv : ℚ
  apr : ℚ
  n : ℤ
  mpr : ℚ
  dpr : ℚ
  date : PyDate
  total_interest : ℚ
  deriving DecidableEq, Repr

namespace Amoritize

/-- Constructor `Amoritize.__init__`.  Arguments `bal` and `apr` are the
exact rational values of the Python floats passed in; `Decimal(bal)` converts
exactly and is then quantized to 2 digits, while `mpr` and `dpr` come from
binary float division (`apr / 12`, `apr / 365`) converted exactly to
`Decimal`.  The class attribute `total_interest` starts at `Decimal(0)`. -/
def init (bal apr : ℚ) (n : ℤ) (start_date : PyDate) : Amoritize :=
  { bal := quantize2 bal
    pv := quantize2 bal
    apr := apr
    n := n
    mpr := floatDiv apr 12
    dpr := floatDiv apr 365
    date := start_date
    total_interest := 0 }

/-- Method `calculate_pmt`, the annuity formula
`Decimal(self.pv * (self.mpr / (1 - (1 + self.mpr) ** -self.n))).quantize(Decimal("0.00"))`;
`none` models a raised decimal signal. -/
def calculate_pmt (a : Amoritize) : Option ℚ :=
  match decPow (decAdd 1 a.mpr) (-a.n) with
  | none => none
  | some p =>
    match decDiv a.mpr (decSub 1 p) with
    | none => none
    | some q => some (quantize2 (decMul a.pv q))

/-- Method `calculate_interest_due`:
`Decimal(self.pv * self.mpr).quantize(Decimal("0.00"))`. -/
def calculate_interest_due (a : Amoritize) : ℚ :=
  quantize2 (decMul a.pv a.mpr)

/-- Method `calculate_principal_paid`:
`Decimal(pmt - interest).quantize(Decimal("0.00"))`. -/
def calculate_principal_paid (pmt interest : ℚ) : ℚ :=
  quantize2 (decSub pmt interest)

/-- Method `calculate_new_balance`:
`Decimal(self.pv - principal_paid).quantize(Decimal("0.00"))`. -/
def calculate_new_balance (a : Amoritize) (principal_paid : ℚ) : ℚ :=
  quantize2 (decSub a.pv principal_paid)

end Amoritize

/-- One row of the schedule, carrying the `Decimal` values of the month
dictionary.  The source stores the four amounts through `float(...)`; that
boundary conversion is `monthFloat` below, and the response holds the
converted rows. -/
structure Month where
  payment : ℚ
  interest : ℚ
  principal_paid : ℚ
  present_value : ℚ
  date : PyDate
  deriving DecidableEq, Repr

/-- The month dictionary as actually stored: each currency amount passed
through `float(...)` (exact `Decimal`-to-binary64 rounding). -/
def monthFloat (m : Month) : Month :=
  { payment := pyFloat m.payment
    interest := pyFloat m.interest
    principal_paid := pyFloat m.principal_paid
    present_value := pyFloat m.present_value
    date := m.date }

namespace Amoritize

/-- Body of the `while counter > 0` loop for one month.  `isLast` is the test
`counter == 1`; the final-period correction fires only then and only when the
tentative updated balance is strictly positive.  Returns the month row, the
updated instance state, and the (possibly corrected) `pmt`. -/
def periodStep (a : Amoritize) (pmt : ℚ) (isLast : Bool) (month_counter : ℕ) :
    Month × Amoritize × ℚ :=
  let monthly_interest := calculate_interest_due a
  let principal_paid := calculate_principal_paid pmt monthly_interest
  let updated_balance := calculate_new_balance a principal_paid
  let step :=
    if isLast ∧ 0 < updated_balance then
      let pmt' := decAdd pmt updated_balance
      let principal_paid' := calculate_principal_paid pmt' monthly_interest
      (pmt', principal_paid', calculate_new_balance a principal_paid')
    else (pmt, principal_paid, updated_balance)
  let a' := { a with pv := step.2.2 }
  let month : Month :=
    { payment := step.1
      interest := monthly_interest
      principal_paid := step.2.1
      present_value := a'.pv
      date := addMonths a.date month_counter }
  (month, { a' with total_interest := decAdd a'.total_interest monthly_interest },
    step.1)

/-- The schedule loop: `counter` runs down from `n` while `month_counter`
runs up from `0`; the correction step is taken when `counter == 1`. -/
def scheduleLoop (a : Amoritize) (pmt : ℚ) :
    (counter : ℕ) → (month_counter : ℕ) → List Month × Amoritize × ℚ
  | 0, _ => ([], a, pmt)
  | c+1, mc =>
    let s := periodStep a pmt (c == 0) mc
    let r := scheduleLoop s.2.1 s.2.2 c (mc + 1)
    (s.1 :: r.1, r.2)

/-- The response dictionary of `schedule()`: `balance` and `monthly_payment`
stay `Decimal`; `total_interest`, `total_cost` and the schedule rows go
through `float(...)`. -/
structure Response where
  balance : ℚ
  apr : ℚ
  monthly_payment : ℚ
  schedule : List Month
  total_interest : ℚ
  total_cost : ℚ
  deriving DecidableEq, Repr

/-- Method `schedule()`: computes `pmt` once, loops `n` times mutating
`self.pv` and `self.total_interest`, and returns the response dictionary
together with the mutated instance.  `none` models a decimal signal raised
inside `calculate_pmt`. -/
def schedule (a : Amoritize) : Option (Response × Amoritize) :=
  match calculate_pmt a with
  | none => none
  | some pmt0 =>
    let r := scheduleLoop a pmt0 a.n.toNat 0
    some ({ balance := a.bal
            apr := a.apr
            monthly_payment := r.2.2
            schedule := r.1.map monthFloat
            total_interest := pyFloat r.2.1.total_interest
            total_cost := pyFloat (decAdd a.bal r.2.1.total_interest) },
          r.2.1)

/-- The schedule rows at `Decimal` precision (before the boundary `float`
conversion): the list built by `scheduleLoop` on a given instance. -/
def scheduleTrace (a : Amoritize) (pmt0 : ℚ) : List Month :=
  (scheduleLoop a pmt0 a.n.toNat 0).1

/-- State reached after `k` non-final loop iterations (the `month_counter`
argument does not influence the state, only the recorded dates). -/
def stateAt : ℕ → Amoritize → ℚ → Amoritize
  | 0, a, _ => a
  | k+1, a, pmt => stateAt k (periodStep a pmt false 0).2.1 pmt

end Amoritize

/-- Helper anchor for stating the balance-chaining invariant: a pseudo-row
holding the balance before the first period. -/
def pseudoMonth (pv : ℚ) : Month := ⟨0, 0, 0, pv, ⟨0, 1, 1⟩⟩

/-- A rational is a whole number of cents (an exact 2-fractional-digit
currency amount). -/
def IsCents (q : ℚ) : Prop := ∃ k : ℤ, q = (k : ℚ) / 100

/-- Fixture 1 of the spec (source-verified): principal `32397.75`, annual
rate `0.10313`, 39 periods.  The class always takes a start date; it does not
influence any amount. -/
def fixA : Amoritize :=
  Amoritize.init (pyFloat (3239775/100)) (pyFloat (10313/100000)) 39 ⟨2019, 7, 1⟩

/-- Fixture 2 of the spec (the run in the source file): principal `32397.75`,
annual rate `0.065`, 39 periods, start date 2019-07-01. -/
def fixB : Amoritize :=
  Amoritize.init (pyFloat (3239775/100)) (pyFloat (65/1000)) 39 ⟨2019, 7, 1⟩

/-- Small engine used as a concrete probe: principal `10000.00`, rate `0.12`,
2 periods.  Its final-period correction fires with residual `+0.01`. -/
def wit0 : Amoritize :=
  Amoritize.init (pyFloat 10000) (pyFloat (12/100)) 2 ⟨2020, 1, 1⟩

/-- Valid input whose rounding drift overshoots: principal `5000.00`, rate
`0.18`, 5 periods; the tentative final balance is negative, the correction
does not fire, and the schedule ends at `-0.02`. -/
def cex1 : Amoritize :=
  Amoritize.init (pyFloat 5000) (pyFloat (18/100)) 5 ⟨2020, 1, 1⟩

/-- Invalid input probe: negative principal `-100`, one period. -/
def badP : Amoritize :=
  Amoritize.init (pyFloat (-100)) (pyFloat (12/100)) 1 ⟨2020, 1, 1⟩

/-- Invalid input probe: zero period count. -/
def badN0 : Amoritize :=
  Amoritize.init (pyFloat 100) (pyFloat (12/100)) 0 ⟨2020, 1, 1⟩

/-- Invalid input probe: negative period count. -/
def badNneg : Amoritize :=
  Amoritize.init (pyFloat 100) (pyFloat (12/100)) (-5) ⟨2020, 1, 1⟩

/-- The response `wit0.schedule()` returns (computed value, spelled out so
that theorems with a response hypothesis can be exercised on it). -/
def wit0r : Amoritize.Response :=
  { balance := 10000
    apr := 1080863910568919/9007199254740992
    monthly_payment := 507513/100
    schedule :=
      [⟨5580153452358533/1099511627776, 100, 5470202289580933/1099511627776,
        5524913988179067/1099511627776, ⟨2020, 1, 1⟩⟩,
       ⟨5580164447474811/1099511627776, 201/4, 5524913988179067/1099511627776,
        0, ⟨2020, 2, 1⟩⟩]
    total_interest := 601/4
    total_cost := 40601/4 }

/-- The mutated instance state after `wit0.schedule()` returns. -/
def wit0s : Amoritize :=
  { bal := 10000
    pv := 0
    apr := 1080863910568919/9007199254740992
    n := 2
    mpr := 5764607523034235/576460752303423488
    dpr := 6064682983137387/18446744073709551616
    date := ⟨2020, 1, 1⟩
    total_interest := 601/4 }

/-! ### Basic facts about the rounding primitives -/

theorem qnpow_eq_pow (q : ℚ) : ∀ n : ℕ, qnpow q n = q ^ n
  | 0 => by simp [qnpow]
  | n+1 => by rw [qnpow, qnpow_eq_pow q n, pow_succ]; ring

theorem zpowQ_eq_zpow (q : ℚ) (e : ℤ) : zpowQ q e = q ^ e := by
  unfold zpowQ
  split
  · next h => rw [qnpow_eq_pow, ← zpow_natCast, Int.toNat_of_nonneg h]
  · next h =>
    rw [qnpow_eq_pow, ← zpow_natCast, Int.toNat_of_nonneg (by omega : (0:ℤ) ≤ -e),
      ← zpow_neg, neg_neg]

theorem roundHalfEven_intCast (k : ℤ) : roundHalfEven (k : ℚ) = k := by
  unfold roundHalfEven
  simp

theorem roundHalfEven_half (m : ℤ) :
    roundHalfEven ((m : ℚ) + 1/2) = if m % 2 = 0 then m else m + 1 := by
  unfold roundHalfEven
  have hf : ⌊(m : ℚ) + 1/2⌋ = m := by
    rw [add_comm, Int.floor_add_int]
    norm_num
  simp only [hf]
  norm_num

theorem natLogF_spec (b : ℕ) (hb : 2 ≤ b) :
    ∀ fuel n, n ≤ fuel → 1 ≤ n →
      b ^ natLogF b fuel n ≤ n ∧ n < b ^ (natLogF b fuel n + 1)
  | 0, n, hf, hn => by omega
  | fuel+1, n, hf, hn => by
    rw [natLogF]
    split
    · next h =>
      constructor
      · simpa using hn
      · simpa using h
    · next h =>
      have hbn : b ≤ n := le_of_not_lt h
      have hdiv_lt : n / b < n := Nat.div_lt_self (by omega) (by omega)
      have hdiv1 : 1 ≤ n / b := (Nat.one_le_div_iff (by omega)).mpr hbn
      obtain ⟨h1, h2⟩ := natLogF_spec b hb fuel (n / b) (by omega) hdiv1
      constructor
      · calc b ^ (natLogF b fuel (n / b) + 1)
            = b ^ natLogF b fuel (n / b) * b := by rw [pow_succ]
          _ ≤ (n / b) * b := Nat.mul_le_mul_right b h1
          _ ≤ n := Nat.div_mul_le_self n b
      · have h3 : n / b + 1 ≤ b ^ (natLogF b fuel (n / b) + 1) := h2
        have h4 : n < b * (n / b) + b := by
          have e1 := Nat.div_add_mod n b
          have e2 := Nat.mod_lt n (show 0 < b by omega)
          omega
        calc n < b * (n / b) + b := h4
          _ = b * (n / b + 1) := by ring
          _ ≤ b * b ^ (natLogF b fuel (n / b) + 1) := Nat.mul_le_mul_left b h3
          _ = b ^ (natLogF b fuel (n / b) + 1 + 1) := by rw [pow_succ]; ring

theorem natLog_spec (b n : ℕ) (hb : 2 ≤ b) (hn : 1 ≤ n) :
    b ^ natLog b n ≤ n ∧ n < b ^ (natLog b n + 1) :=
  natLogF_spec b hb n n le_rfl hn

theorem ilogb_spec (b : ℕ) (hb : 2 ≤ b) (q : ℚ) (hq : q ≠ 0) :
    (b : ℚ) ^ (ilogb b q) ≤ |q| ∧ |q| < (b : ℚ) ^ (ilogb b q + 1) := by
  have hnum : q.num ≠ 0 := Rat.num_ne_zero.mpr hq
  have ha : 1 ≤ q.num.natAbs := by
    have := Int.natAbs_pos.mpr hnum
    omega
  obtain ⟨ha1, ha2⟩ := natLog_spec b q.num.natAbs hb ha
  obtain ⟨hd1, hd2⟩ := natLog_spec b q.den hb q.pos
  have hB1 : (1 : ℚ) < (b : ℚ) := by exact_mod_cast (by omega : 1 < b)
  have hB0 : (0 : ℚ) < (b : ℚ) := lt_trans one_pos hB1
  have hBne : (b : ℚ) ≠ 0 := ne_of_gt hB0
  have hdpos : (0 : ℚ) < (q.den : ℚ) := by exact_mod_cast q.pos
  have hapos : (0 : ℚ) < (q.num.natAbs : ℚ) := by exact_mod_cast ha
  have habs : |q| = (q.num.natAbs : ℚ) / (q.den : ℚ) := by
    conv_lhs => rw [← Rat.num_div_den q]
    rw [abs_div, abs_of_pos hdpos, ← Int.cast_abs, Int.abs_eq_natAbs, Int.cast_natCast]
  set zA : ℤ := (natLog b q.num.natAbs : ℤ)
  set zD : ℤ := (natLog b q.den : ℤ)
  have cA1 : (b : ℚ) ^ zA ≤ (q.num.natAbs : ℚ) := by
    rw [zpow_natCast]
    exact_mod_cast ha1
  have cA2 : (q.num.natAbs : ℚ) < (b : ℚ) ^ (zA + 1) := by
    rw [show zA + 1 = ((natLog b q.num.natAbs + 1 : ℕ) : ℤ) by push_cast; ring, zpow_natCast]
    exact_mod_cast ha2
  have cD1 : (b : ℚ) ^ zD ≤ (q.den : ℚ) := by
    rw [zpow_natCast]
    exact_mod_cast hd1
  have cD2 : (q.den : ℚ) < (b : ℚ) ^ (zD + 1) := by
    rw [show zD + 1 = ((natLog b q.den + 1 : ℕ) : ℤ) by push_cast; ring, zpow_natCast]
    exact_mod_cast hd2
  have key_low : (b : ℚ) ^ (zA - zD - 1) < |q| := by
    rw [habs, show zA - zD - 1 = zA - (zD + 1) by ring, zpow_sub₀ hBne,
      div_lt_div_iff (zpow_pos hB0 _) hdpos]
    calc (b : ℚ) ^ zA * (q.den : ℚ)
        < (b : ℚ) ^ zA * (b : ℚ) ^ (zD + 1) :=
          mul_lt_mul_of_pos_left cD2 (zpow_pos hB0 _)
      _ ≤ (q.num.natAbs : ℚ) * (b : ℚ) ^ (zD + 1) :=
          mul_le_mul_of_nonneg_right cA1 (zpow_pos hB0 _).le
  have key_high : |q| < (b : ℚ) ^ (zA - zD + 1) := by
    rw [habs, show zA - zD + 1 = (zA + 1) - zD by ring, zpow_sub₀ hBne,
      div_lt_div_iff hdpos (zpow_pos hB0 _)]
    calc (q.num.natAbs : ℚ) * (b : ℚ) ^ zD
        < (b : ℚ) ^ (zA + 1) * (b : ℚ) ^ zD :=
          mul_lt_mul_of_pos_right cA2 (zpow_pos hB0 _)
      _ ≤ (b : ℚ) ^ (zA + 1) * (q.den : ℚ) :=
          mul_le_mul_of_nonneg_left cD1 (zpow_pos hB0 _).le
  unfold ilogb
  simp only [zpowQ_eq_zpow]
  split
  · next h => exact absurd h (not_le.mpr key_high)
  · next h1 =>
    split
    · next h2 => exact ⟨h2, lt_of_not_le h1⟩
    · next h2 =>
      refine ⟨le_of_lt key_low, ?_⟩
      rw [sub_add_cancel]
      exact lt_of_not_le h2

theorem IsCents.add {a b : ℚ} (ha : IsCents a) (hb : IsCents b) : IsCents (a + b) := by
  obtain ⟨j, rfl⟩ := ha
  obtain ⟨k, rfl⟩ := hb
  exact ⟨j + k, by push_cast; ring⟩

theorem IsCents.sub {a b : ℚ} (ha : IsCents a) (hb : IsCents b) : IsCents (a - b) := by
  obtain ⟨j, rfl⟩ := ha
  obtain ⟨k, rfl⟩ := hb
  exact ⟨j - k, by push_cast; ring⟩

theorem quantize2_isCents (q : ℚ) : IsCents (quantize2 q) :=
  ⟨roundHalfEven (q * 100), rfl⟩

theorem quantize2_eq_self {q : ℚ} (hc : IsCents q) : quantize2 q = q := by
  obtain ⟨k, rfl⟩ := hc
  unfold quantize2
  rw [div_mul_cancel₀ _ (by norm_num : (100 : ℚ) ≠ 0), roundHalfEven_intCast]

/-- Values that are whole cents and bounded by `10^24` are exactly
representable in 28 significant digits, so the context rounding leaves them
unchanged. -/
theorem ctxRound_eq_self {q : ℚ} (hc : IsCents q) (hB : |q| ≤ 10 ^ 24) :
    ctxRound q = q := by
  by_cases hq : q = 0
  · subst hq
    rfl
  unfold ctxRound roundSig
  rw [if_neg hq]
  simp only [zpowQ_eq_zpow]
  rw [show ((28 : ℕ) : ℤ) - 1 = (27 : ℤ) from by norm_num]
  obtain ⟨hlo, _⟩ := ilogb_spec 10 (by norm_num) q hq
  have hz : ilogb 10 q ≤ 24 := by
    by_contra hcon
    push_neg at hcon
    have h25 : (10 : ℚ) ^ (25 : ℤ) ≤ (10 : ℚ) ^ (ilogb 10 q) :=
      zpow_le_zpow_right₀ (by norm_num) (by omega)
    have hcollapse : (10 : ℚ) ^ (25 : ℤ) ≤ 10 ^ 24 := le_trans (h25.trans hlo) hB
    norm_num at hcollapse
  obtain ⟨k, rfl⟩ := hc
  set e : ℤ := ilogb 10 ((k : ℚ) / 100) - 27 with he
  have hee : e ≤ -3 := by omega
  have hm : (0 : ℤ) ≤ -e - 2 := by omega
  have hkey : (k : ℚ) / 100 * (10 : ℚ) ^ (-e) = ((k * 10 ^ (-e - 2).toNat : ℤ) : ℚ) := by
    have h10 : ((10 : ℚ)) ^ (-e) = (10 : ℚ) ^ ((-e - 2) + 2) := by ring_nf
    rw [h10, zpow_add₀ (by norm_num : (10 : ℚ) ≠ 0),
      show ((-e - 2) : ℤ) = (((-e - 2).toNat : ℕ) : ℤ) by omega, zpow_natCast]
    push_cast
    field_simp
    ring
  rw [hkey, roundHalfEven_intCast]
  push_cast
  rw [show ((10 : ℚ) ^ (-e - 2).toNat) = (10 : ℚ) ^ (((-e - 2).toNat : ℕ)) from rfl,
    ← zpow_natCast (10 : ℚ) ((-e - 2).toNat),
    show (((-e - 2).toNat : ℕ) : ℤ) = -e - 2 by omega]
  rw [mul_comm (k : ℚ) _, ← mul_assoc, ← zpow_add₀ (by norm_num : (10 : ℚ) ≠ 0)]
  rw [show e + (-e - 2) = (-2 : ℤ) by ring]
  rw [show (10 : ℚ) ^ (-2 : ℤ) = 1 / 100 by norm_num]
  ring

theorem abs_sub_le_sum (a b : ℚ) : |a - b| ≤ |a| + |b| := by
  rw [sub_eq_add_neg]
  exact (abs_add _ _).trans (by rw [abs_neg])

theorem decSub_cents {a b : ℚ} (ha : IsCents a) (hb : IsCents b)
    (hB : |a - b| ≤ 10 ^ 24) : decSub a b = a - b :=
  ctxRound_eq_self (ha.sub hb) hB

theorem decAdd_cents {a b : ℚ} (ha : IsCents a) (hb : IsCents b)
    (hB : |a + b| ≤ 10 ^ 24) : decAdd a b = a + b :=
  ctxRound_eq_self (ha.add hb) hB

namespace Amoritize

theorem periodStep_interest (a : Amoritize) (pmt : ℚ) (l : Bool) (mc : ℕ) :
    (periodStep a pmt l mc).1.interest = calculate_interest_due a := rfl

theorem periodStep_date (a : Amoritize) (pmt : ℚ) (l : Bool) (mc : ℕ) :
    (periodStep a pmt l mc).1.date = addMonths a.date mc := rfl

theorem periodStep_pv (a : Amoritize) (pmt : ℚ) (l : Bool) (mc : ℕ) :
    (periodStep a pmt l mc).2.1.pv = (periodStep a pmt l mc).1.present_value := rfl

theorem periodStep_pmt (a : Amoritize) (pmt : ℚ) (l : Bool) (mc : ℕ) :
    (periodStep a pmt l mc).2.2 = (periodStep a pmt l mc).1.payment := rfl

theorem periodStep_state_mc (a : Amoritize) (pmt : ℚ) (l : Bool) (mc : ℕ) :
    (periodStep a pmt l mc).2.1 = (periodStep a pmt l 0).2.1 := rfl

theorem periodStep_bal (a : Amoritize) (pmt : ℚ) (l : Bool) (mc : ℕ) :
    (periodStep a pmt l mc).2.1.bal = a.bal := rfl

theorem periodStep_apr (a : Amoritize) (pmt : ℚ) (l : Bool) (mc : ℕ) :
    (periodStep a pmt l mc).2.1.apr = a.apr := rfl

theorem periodStep_n (a : Amoritize) (pmt : ℚ) (l : Bool) (mc : ℕ) :
    (periodStep a pmt l mc).2.1.n = a.n := rfl

theorem periodStep_mpr (a : Amoritize) (pmt : ℚ) (l : Bool) (mc : ℕ) :
    (periodStep a pmt l mc).2.1.mpr = a.mpr := rfl

theorem periodStep_dpr (a : Amoritize) (pmt : ℚ) (l : Bool) (mc : ℕ) :
    (periodStep a pmt l mc).2.1.dpr = a.dpr := rfl

theorem periodStep_sdate (a : Amoritize) (pmt : ℚ) (l : Bool) (mc : ℕ) :
    (periodStep a pmt l mc).2.1.date = a.date := rfl

/-- Characterization of one loop iteration when the running quantities are
whole cents of bounded size (so that the 28-digit context rounding is exact):
the recorded interest is always the pre-correction interest; without the
correction the row decomposes as `payment = pmt`,
`principal_paid = pmt - interest`, `present_value = pv - principal_paid`;
with the correction (last period, positive tentative balance) the payment and
the principal each absorb exactly the residual and the closing balance is
exactly zero. -/
theorem periodStep_char (a : Amoritize) (pmt : ℚ) (l : Bool) (mc : ℕ)
    (hpv : IsCents a.pv) (hpmt : IsCents pmt)
    (hpvB : |a.pv| ≤ 10 ^ 20) (hpmtB : |pmt| ≤ 10 ^ 20)
    (hmiB : |calculate_interest_due a| ≤ 10 ^ 20) :
    (periodStep a pmt l mc).1.interest = calculate_interest_due a ∧
    (if l ∧ 0 < a.pv - (pmt - calculate_interest_due a) then
      (periodStep a pmt l mc).1.payment
          = pmt + (a.pv - (pmt - calculate_interest_due a)) ∧
      (periodStep a pmt l mc).1.principal_paid
          = (pmt - calculate_interest_due a)
            + (a.pv - (pmt - calculate_interest_due a)) ∧
      (periodStep a pmt l mc).1.present_value = 0
    else
      (periodStep a pmt l mc).1.payment = pmt ∧
      (periodStep a pmt l mc).1.principal_paid = pmt - calculate_interest_due a ∧
      (periodStep a pmt l mc).1.present_value
          = a.pv - (pmt - calculate_interest_due a)) := by
  set mi := calculate_interest_due a with hmidef
  have hmiC : IsCents mi := quantize2_isCents _
  set PP : ℚ := quantize2 (decSub pmt mi) with hPPdef
  set UB : ℚ := quantize2 (decSub a.pv PP) with hUBdef
  set PMT2 : ℚ := decAdd pmt UB with hPMT2def
  set PP2 : ℚ := quantize2 (decSub PMT2 mi) with hPP2def
  set UB2 : ℚ := quantize2 (decSub a.pv PP2) with hUB2def
  have hppB : |pmt - mi| ≤ 10 ^ 24 := by
    have h1 := abs_sub_le_sum pmt mi
    linarith
  have hpp : PP = pmt - mi := by
    rw [hPPdef, decSub_cents hpmt hmiC hppB]
    exact quantize2_eq_self (hpmt.sub hmiC)
  have hppC : IsCents (pmt - mi) := hpmt.sub hmiC
  have hubB : |a.pv - (pmt - mi)| ≤ 10 ^ 24 := by
    have h1 := abs_sub_le_sum a.pv (pmt - mi)
    have h2 := abs_sub_le_sum pmt mi
    linarith
  have hub : UB = a.pv - (pmt - mi) := by
    rw [hUBdef, hpp, decSub_cents hpv hppC hubB]
    exact quantize2_eq_self (hpv.sub hppC)
  have hubC : IsCents (a.pv - (pmt - mi)) := hpv.sub hppC
  have hpmt2B : |pmt + (a.pv - (pmt - mi))| ≤ 10 ^ 24 := by
    have h1 := abs_add pmt (a.pv - (pmt - mi))
    have h2 := abs_sub_le_sum a.pv (pmt - mi)
    have h3 := abs_sub_le_sum pmt mi
    linarith
  have hpmt2 : PMT2 = pmt + (a.pv - (pmt - mi)) := by
    rw [hPMT2def, hub]
    exact decAdd_cents hpmt hubC hpmt2B
  have hpmt2C : IsCents (pmt + (a.pv - (pmt - mi))) := hpmt.add hubC
  have hpp2B : |pmt + (a.pv - (pmt - mi)) - mi| ≤ 10 ^ 24 := by
    have h1 := abs_sub_le_sum (pmt + (a.pv - (pmt - mi))) mi
    have h2 := abs_add pmt (a.pv - (pmt - mi))
    have h3 := abs_sub_le_sum a.pv (pmt - mi)
    have h4 := abs_sub_le_sum pmt mi
    linarith
  have hpp2 : PP2 = (pmt - mi) + (a.pv - (pmt - mi)) := by
    rw [hPP2def, hpmt2, decSub_cents hpmt2C hmiC hpp2B,
      quantize2_eq_self (hpmt2C.sub hmiC)]
    ring
  have hpp2C : IsCents ((pmt - mi) + (a.pv - (pmt - mi))) := hppC.add hubC
  have hub2B : |a.pv - ((pmt - mi) + (a.pv - (pmt - mi)))| ≤ 10 ^ 24 := by
    have h0 : a.pv - ((pmt - mi) + (a.pv - (pmt - mi))) = 0 := by ring
    rw [h0]
    norm_num
  have hub2 : UB2 = 0 := by
    rw [hUB2def, hpp2, decSub_cents hpv hpp2C hub2B,
      quantize2_eq_self (hpv.sub hpp2C)]
    ring
  refine ⟨rfl, ?_⟩
  by_cases hcond : (l : Prop) ∧ 0 < a.pv - (pmt - mi)
  · rw [if_pos hcond]
    have hcondUB : (l : Prop) ∧ 0 < UB := by
      rw [hub]
      exact hcond
    refine ⟨?_, ?_, ?_⟩
    · show (if (l : Prop) ∧ 0 < UB then (PMT2, PP2, UB2) else (pmt, PP, UB)).1
          = pmt + (a.pv - (pmt - mi))
      rw [if_pos hcondUB]
      exact hpmt2
    · show (if (l : Prop) ∧ 0 < UB then (PMT2, PP2, UB2) else (pmt, PP, UB)).2.1
          = (pmt - mi) + (a.pv - (pmt - mi))
      rw [if_pos hcondUB]
      exact hpp2
    · show (if (l : Prop) ∧ 0 < UB then (PMT2, PP2, UB2) else (pmt, PP, UB)).2.2 = 0
      rw [if_pos hcondUB]
      exact hub2
  · rw [if_neg hcond]
    have hcondUB : ¬ ((l : Prop) ∧ 0 < UB) := by
      rw [hub]
      exact hcond
    refine ⟨?_, ?_, ?_⟩
    · show (if (l : Prop) ∧ 0 < UB then (PMT2, PP2, UB2) else (pmt, PP, UB)).1 = pmt
      rw [if_neg hcondUB]
    · show (if (l : Prop) ∧ 0 < UB then (PMT2, PP2, UB2) else (pmt, PP, UB)).2.1
          = pmt - mi
      rw [if_neg hcondUB]
      exact hpp
    · show (if (l : Prop) ∧ 0 < UB then (PMT2, PP2, UB2) else (pmt, PP, UB)).2.2
          = a.pv - (pmt - mi)
      rw [if_neg hcondUB]
      exact hub

theorem periodStep_false_payment (a : Amoritize) (pmt : ℚ) (mc : ℕ) :
    (periodStep a pmt false mc).1.payment = pmt := rfl

theorem periodStep_false_outpmt (a : Amoritize) (pmt : ℚ) (mc : ℕ) :
    (periodStep a pmt false mc).2.2 = pmt := rfl

theorem scheduleLoop_length (c : ℕ) :
    ∀ (a : Amoritize) (pmt : ℚ) (mc : ℕ), (scheduleLoop a pmt c mc).1.length = c := by
  induction c with
  | zero => intro a pmt mc; rfl
  | succ c ih =>
    intro a pmt mc
    show ((periodStep a pmt (c == 0) mc).1
        :: (scheduleLoop (periodStep a pmt (c == 0) mc).2.1
            (periodStep a pmt (c == 0) mc).2.2 c (mc + 1)).1).length = c + 1
    rw [List.length_cons, ih]

theorem scheduleLoop_cons (a : Amoritize) (pmt : ℚ) (c mc : ℕ) :
    scheduleLoop a pmt (c + 1) mc
      = ((periodStep a pmt (c == 0) mc).1
          :: (scheduleLoop (periodStep a pmt (c == 0) mc).2.1
              (periodStep a pmt (c == 0) mc).2.2 c (mc + 1)).1,
        (scheduleLoop (periodStep a pmt (c == 0) mc).2.1
          (periodStep a pmt (c == 0) mc).2.2 c (mc + 1)).2) := rfl

theorem scheduleLoop_date (c : ℕ) :
    ∀ (a : Amoritize) (pmt : ℚ) (mc i : ℕ) (m : Month),
      (scheduleLoop a pmt c mc).1.get? i = some m → m.date = addMonths a.date (mc + i) := by
  induction c with
  | zero => intro a pmt mc i m h; simp [scheduleLoop] at h
  | succ c ih =>
    intro a pmt mc i m h
    rw [scheduleLoop_cons] at h
    match i with
    | 0 =>
      simp only [List.get?_cons_zero, Option.some.injEq] at h
      rw [← h, periodStep_date, Nat.add_zero]
    | Nat.succ j =>
      simp only [List.get?_cons_succ] at h
      have := ih _ _ (mc + 1) j m h
      rw [this, periodStep_sdate]
      congr 1
      omega

theorem scheduleLoop_payment (c : ℕ) :
    ∀ (a : Amoritize) (pmt : ℚ) (mc i : ℕ) (m : Month), i + 1 < c →
      (scheduleLoop a pmt c mc).1.get? i = some m → m.payment = pmt := by
  induction c with
  | zero => intro a pmt mc i m hi h; omega
  | succ c ih =>
    intro a pmt mc i m hi h
    have hc : (c == 0) = false := by
      have : c ≠ 0 := by omega
      simpa using this
    rw [scheduleLoop_cons, hc] at h
    match i with
    | 0 =>
      simp only [List.get?_cons_zero, Option.some.injEq] at h
      rw [← h, periodStep_false_payment]
    | Nat.succ j =>
      simp only [List.get?_cons_succ] at h
      rw [periodStep_false_outpmt] at h
      exact ih _ _ (mc + 1) j m (by omega) h

theorem scheduleLoop_getLast_payment (c : ℕ) :
    ∀ (a : Amoritize) (pmt : ℚ) (mc : ℕ) (m : Month),
      (scheduleLoop a pmt c mc).1.getLast? = some m →
      (scheduleLoop a pmt c mc).2.2 = m.payment := by
  induction c with
  | zero => intro a pmt mc m h; simp [scheduleLoop] at h
  | succ c ih =>
    intro a pmt mc m h
    rw [scheduleLoop_cons] at h ⊢
    match c, h with
    | 0, h =>
      simp only [scheduleLoop, List.getLast?_singleton, Option.some.injEq] at h
      show (periodStep a pmt (0 == 0) mc).2.2 = m.payment
      rw [← h, periodStep_pmt]
    | Nat.succ c', h =>
      have hlen : (scheduleLoop (periodStep a pmt (c' + 1 == 0) mc).2.1
          (periodStep a pmt (c' + 1 == 0) mc).2.2 (c' + 1) (mc + 1)).1.length = c' + 1 :=
        scheduleLoop_length _ _ _ _
      match hrest : (scheduleLoop (periodStep a pmt (c' + 1 == 0) mc).2.1
          (periodStep a pmt (c' + 1 == 0) mc).2.2 (c' + 1) (mc + 1)).1, hlen with
      | b :: t, _ =>
        rw [hrest, List.getLast?_cons_cons] at h
        have := ih _ _ (mc + 1) m (by rw [hrest]; exact h)
        exact this

theorem scheduleLoop_preserves (c : ℕ) :
    ∀ (a : Amoritize) (pmt : ℚ) (mc : ℕ),
      (scheduleLoop a pmt c mc).2.1.bal = a.bal ∧
      (scheduleLoop a pmt c mc).2.1.apr = a.apr ∧
      (scheduleLoop a pmt c mc).2.1.n = a.n ∧
      (scheduleLoop a pmt c mc).2.1.mpr = a.mpr ∧
      (scheduleLoop a pmt c mc).2.1.dpr = a.dpr ∧
      (scheduleLoop a pmt c mc).2.1.date = a.date := by
  induction c with
  | zero => intro a pmt mc; exact ⟨rfl, rfl, rfl, rfl, rfl, rfl⟩
  | succ c ih =>
    intro a pmt mc
    rw [scheduleLoop_cons]
    obtain ⟨h1, h2, h3, h4, h5, h6⟩ := ih (periodStep a pmt (c == 0) mc).2.1
      (periodStep a pmt (c == 0) mc).2.2 (mc + 1)
    exact ⟨h1.trans (periodStep_bal a pmt _ mc),
      h2.trans (periodStep_apr a pmt _ mc),
      h3.trans (periodStep_n a pmt _ mc),
      h4.trans (periodStep_mpr a pmt _ mc),
      h5.trans (periodStep_dpr a pmt _ mc),
      h6.trans (periodStep_sdate a pmt _ mc)⟩

theorem scheduleLoop_getLast_step (c : ℕ) :
    ∀ (a : Amoritize) (pmt : ℚ) (mc : ℕ),
      (scheduleLoop a pmt (c + 1) mc).1.getLast?
        = some ((periodStep (stateAt c a pmt) pmt true (mc + c)).1) := by
  induction c with
  | zero =>
    intro a pmt mc
    rw [scheduleLoop_cons]
    show ((periodStep a pmt (0 == 0) mc).1 :: []).getLast? = _
    rw [List.getLast?_singleton]
    rfl
  | succ c ih =>
    intro a pmt mc
    rw [scheduleLoop_cons]
    have hlen : (scheduleLoop (periodStep a pmt (c + 1 == 0) mc).2.1
        (periodStep a pmt (c + 1 == 0) mc).2.2 (c + 1) (mc + 1)).1.length = c + 1 :=
      scheduleLoop_length _ _ _ _
    match hrest : (scheduleLoop (periodStep a pmt (c + 1 == 0) mc).2.1
        (periodStep a pmt (c + 1 == 0) mc).2.2 (c + 1) (mc + 1)).1, hlen with
    | b :: t, _ =>
      rw [List.getLast?_cons_cons, ← hrest]
      have hpmt : (periodStep a pmt (c + 1 == 0) mc).2.2 = pmt :=
        periodStep_false_outpmt a pmt mc
      rw [hpmt] at hrest ⊢
      rw [ih ((periodStep a pmt (c + 1 == 0) mc).2.1) pmt (mc + 1)]
      have hstate : stateAt c (periodStep a pmt (c + 1 == 0) mc).2.1 pmt
          = stateAt (c + 1) a pmt := by
        show stateAt c (periodStep a pmt false mc).2.1 pmt = _
        rw [periodStep_state_mc]
        rfl
      rw [hstate, show mc + 1 + c = mc + (c + 1) from by omega]

theorem chain_present_value_congr (x y : Month)
    (hxy : x.present_value = y.present_value) (l : List Month)
    (h : List.Chain (fun u v => v.present_value = u.present_value - v.principal_paid) x l) :
    List.Chain (fun u v => v.present_value = u.present_value - v.principal_paid) y l := by
  match l, h with
  | [], _ => exact List.Chain.nil
  | b :: t, h =>
    rw [List.chain_cons] at h ⊢
    exact ⟨by rw [← hxy]; exact h.1, h.2⟩

/-- Every row of a loop run whose quantities stay within `10^20` (in
particular every realistic loan) satisfies the two decomposition identities:
`payment = interest + principal_paid`, and each closing balance is the
previous balance minus the principal retired. -/
theorem scheduleLoop_identities (c : ℕ) :
    ∀ (a : Amoritize) (pmt : ℚ) (mc : ℕ),
      IsCents a.pv → IsCents pmt → |a.pv| ≤ 10 ^ 20 → |pmt| ≤ 10 ^ 20 →
      (∀ m ∈ (scheduleLoop a pmt c mc).1,
        |m.payment| ≤ 10 ^ 20 ∧ |m.interest| ≤ 10 ^ 20 ∧ |m.present_value| ≤ 10 ^ 20) →
      (∀ m ∈ (scheduleLoop a pmt c mc).1, m.payment = m.interest + m.principal_paid) ∧
      List.Chain (fun u v => v.present_value = u.present_value - v.principal_paid)
        (pseudoMonth a.pv) (scheduleLoop a pmt c mc).1 := by
  induction c with
  | zero =>
    intro a pmt mc _ _ _ _ _
    exact ⟨by intro m hm; simp [scheduleLoop] at hm, List.Chain.nil⟩
  | succ c ih =>
    intro a pmt mc hpv hpmt hpvB hpmtB hB
    rw [scheduleLoop_cons] at hB ⊢
    have hhead := hB _ (List.mem_cons_self _ _)
    have hmiB : |calculate_interest_due a| ≤ 10 ^ 20 := by
      have := hhead.2.1
      rwa [periodStep_interest] at this
    obtain ⟨hint, hif⟩ := periodStep_char a pmt (c == 0) mc hpv hpmt hpvB hpmtB hmiB
    set s := periodStep a pmt (c == 0) mc with hs
    set mi := calculate_interest_due a with hmidef
    have hkey : s.1.payment = s.1.interest + s.1.principal_paid ∧
        s.1.present_value = a.pv - s.1.principal_paid ∧
        IsCents s.1.payment ∧ IsCents s.1.present_value := by
      have hmiC : IsCents mi := quantize2_isCents _
      by_cases hcond : (((c == 0) : Bool) : Prop) ∧ 0 < a.pv - (pmt - mi)
      · rw [if_pos hcond] at hif
        obtain ⟨h1, h2, h3⟩ := hif
        refine ⟨?_, ?_, ?_, ?_⟩
        · rw [h1, h2, hint]
          ring
        · rw [h3, h2]
          ring
        · rw [h1]
          exact hpmt.add (hpv.sub (hpmt.sub hmiC))
        · rw [h3]
          exact ⟨0, by norm_num⟩
      · rw [if_neg hcond] at hif
        obtain ⟨h1, h2, h3⟩ := hif
        refine ⟨?_, ?_, ?_, ?_⟩
        · rw [h1, h2, hint]
          ring
        · rw [h3, h2]
        · rw [h1]
          exact hpmt
        · rw [h3]
          exact hpv.sub (hpmt.sub hmiC)
    obtain ⟨hpay_id, hpv_id, hpayC, hpvC⟩ := hkey
    have hrec := ih s.2.1 s.2.2 (mc + 1)
      (by rw [periodStep_pv]; exact hpvC)
      (by rw [periodStep_pmt]; exact hpayC)
      (by rw [periodStep_pv]; exact hhead.2.2)
      (by rw [periodStep_pmt]; exact hhead.1)
      (by intro m hm; exact hB m (List.mem_cons_of_mem _ hm))
    refine ⟨?_, ?_⟩
    · intro m hm
      rcases List.mem_cons.mp hm with hm | hm
      · rw [hm]
        exact hpay_id
      · exact hrec.1 m hm
    · rw [List.chain_cons]
      refine ⟨?_, ?_⟩
      · show s.1.present_value = (pseudoMonth a.pv).present_value - s.1.principal_paid
        exact hpv_id
      · refine chain_present_value_congr (pseudoMonth s.2.1.pv) s.1 ?_ _ hrec.2
        rw [periodStep_pv]
        rfl

theorem calculate_principal_paid_exact {pmt mi : ℚ} (hpmt : IsCents pmt)
    (hmi : IsCents mi) (h1 : |pmt| ≤ 10 ^ 23) (h2 : |mi| ≤ 10 ^ 23) :
    calculate_principal_paid pmt mi = pmt - mi := by
  unfold calculate_principal_paid
  rw [decSub_cents hpmt hmi (by have := abs_sub_le_sum pmt mi; linarith)]
  exact quantize2_eq_self (hpmt.sub hmi)

theorem calculate_new_balance_exact {a : Amoritize} {pp : ℚ} (hpv : IsCents a.pv)
    (hpp : IsCents pp) (h1 : |a.pv| ≤ 10 ^ 23) (h2 : |pp| ≤ 10 ^ 23) :
    calculate_new_balance a pp = a.pv - pp := by
  unfold calculate_new_balance
  rw [decSub_cents hpv hpp (by have := abs_sub_le_sum a.pv pp; linarith)]
  exact quantize2_eq_self (hpv.sub hpp)

theorem calculate_pmt_isCents (a : Amoritize) (p : ℚ)
    (hp : a.calculate_pmt = some p) : IsCents p := by
  unfold calculate_pmt at hp
  rcases h1 : decPow (decAdd 1 a.mpr) (-a.n) with _ | x
  · rw [h1] at hp
    exact absurd hp (by simp)
  · rw [h1] at hp
    have hp' : (match decDiv a.mpr (decSub 1 x) with
        | none => none
        | some q => some (quantize2 (decMul a.pv q))) = some p := hp
    rcases h2 : decDiv a.mpr (decSub 1 x) with _ | y
    · rw [h2] at hp'
      exact absurd hp' (by simp)
    · rw [h2] at hp'
      have h3 := Option.some.inj hp'
      rw [← h3]
      exact quantize2_isCents _

theorem schedule_some_elim (a : Amoritize) (r : Response) (s : Amoritize) (pmt0 : ℚ)
    (hp : a.calculate_pmt = some pmt0) (hs : a.schedule = some (r, s)) :
    r.monthly_payment = (scheduleLoop a pmt0 a.n.toNat 0).2.2 ∧
    s = (scheduleLoop a pmt0 a.n.toNat 0).2.1 := by
  unfold schedule at hs
  rw [hp] at hs
  have h := Option.some.inj hs
  injection h with h1 h2
  subst h1
  subst h2
  exact ⟨rfl, rfl⟩

end Amoritize

open Amoritize

/-! ### Claim theorems -/

/-- C3, counterexample: the program's quantize rounding (default decimal
context) maps the exact midpoint `0.125` to `0.12`, the value with even last
digit, not to `0.13`, the value farther from zero that half-away-from-zero
would give. -/
theorem c3_counterexample :
    quantize2 (125/1000) = 12/100 ∧ quantize2 (-(125/1000)) = -(12/100) ∧
    (12/100 : ℚ) ≠ 13/100 := by
  refine ⟨by with_unfolding_all rfl, by with_unfolding_all rfl, by norm_num⟩

/-- C3 (amended): every quantize call of the program rounds to 2 fractional
digits half-to-even — at any value exactly halfway between two representable
cent amounts `m/100` and `(m+1)/100` the result is the one whose last digit
is even, not the one farther from zero. -/
theorem c3_amended (m : ℤ) :
    quantize2 ((2 * (m : ℚ) + 1) / 200)
      = (if m % 2 = 0 then (m : ℚ) else (m : ℚ) + 1) / 100 := by
  unfold quantize2
  rw [show (2 * (m : ℚ) + 1) / 200 * 100 = (m : ℚ) + 1/2 by ring,
    roundHalfEven_half m]
  split_ifs <;> push_cast <;> ring

/-- C4, counterexample: in the source-file run (annual rate literal `0.065`)
the stored monthly rate differs from the exact rational `0.065 / 12`: the
rate reaches the engine through binary floating point. -/
theorem c4_counterexample : fixB.mpr ≠ (65/1000 : ℚ) / 12 :=
  ne_of_gt (by with_unfolding_all decide)

/-- C4 (amended): the monthly rate is `Decimal(apr / 12)` where `apr / 12` is
binary64 float division of the binary64 float `apr`.  For the `0.065` run the
division itself happens to be exact (`mpr * 12 = apr`) and full precision is
retained (no rounding to 2 digits), but `apr` already differs from `0.065`,
so the monthly rate differs from `0.065 / 12` — by less than `10⁻¹⁷`, yet not
zero. -/
theorem c4_amended :
    fixB.mpr * 12 = fixB.apr ∧
    fixB.apr ≠ (65/1000 : ℚ) ∧
    fixB.mpr ≠ (65/1000 : ℚ) / 12 ∧
    |fixB.mpr - (65/1000 : ℚ) / 12| < 1 / 10 ^ 17 := by
  refine ⟨by with_unfolding_all rfl, ne_of_gt (by with_unfolding_all decide),
    ne_of_gt (by with_unfolding_all decide), by with_unfolding_all decide⟩

/-- C5, counterexample: the negative principal `-100` is accepted without any
validation — `schedule()` returns a full one-period schedule (and a negative
"payment"), not an input-validation error. -/
theorem c5_counterexample :
    pyFloat (-100) < 0 ∧
    badP.schedule.map (fun p => (p.1.schedule.length, p.1.monthly_payment))
      = some (1, -101) := by
  refine ⟨by with_unfolding_all decide, by with_unfolding_all rfl⟩

/-- C5 (amended): the constructor and `schedule()` perform no input
validation.  A non-positive principal is accepted and produces a schedule; a
zero period count is not rejected up front but dies inside `calculate_pmt`
with a decimal division-by-zero (`1 - (1+mpr)**0 = 0`); a negative period
count yields an empty schedule without any error. -/
theorem c5_amended :
    badP.schedule.isSome = true ∧
    (badN0.calculate_pmt = none ∧ badN0.schedule = none) ∧
    badNneg.schedule.map (fun p => p.1.schedule.length) = some 0 := by
  refine ⟨by with_unfolding_all rfl, ⟨by with_unfolding_all rfl, by with_unfolding_all rfl⟩,
    by with_unfolding_all rfl⟩

/-- C1, counterexample: the valid input (principal `5000.00`, annual rate
`0.18 > 0`, 5 periods) does not terminate at zero: rounding drift overshoots,
the tentative final balance is negative, the correction (which only absorbs a
positive residual) does not fire, and the last period's `balance_after` is
`-0.02`. -/
theorem c1_counterexample :
    (0 < pyFloat 5000 ∧ 0 < pyFloat (18/100) ∧ (0 : ℤ) < 5) ∧
    cex1.calculate_pmt = some (104545/100) ∧
    (cex1.scheduleTrace (104545/100)).getLast?.map (fun m => m.present_value)
      = some (-(2/100)) ∧
    (-(2/100) : ℚ) ≠ 0 := by
  refine ⟨by with_unfolding_all decide, by with_unfolding_all rfl,
    by with_unfolding_all rfl, by norm_num⟩

/-- C1 (amended): for a run whose quantities stay within `10^20`, the last
period's `balance_after` is exactly `0.00` whenever the tentative final
balance (`calculate_new_balance` of the uncorrected final principal) is
nonnegative — the correction absorbs a positive residual and a zero residual
needs none.  When rounding drift leaves that tentative balance negative, the
correction does not fire and the schedule ends at exactly that negative
value, not at zero. -/
theorem c1_amended (a : Amoritize) (pmt : ℚ) (c mc : ℕ)
    (hpv : IsCents (stateAt c a pmt).pv) (hpmt : IsCents pmt)
    (hpvB : |(stateAt c a pmt).pv| ≤ 10 ^ 20) (hpmtB : |pmt| ≤ 10 ^ 20)
    (hmiB : |(stateAt c a pmt).calculate_interest_due| ≤ 10 ^ 20) :
    ∀ m : Month, (scheduleLoop a pmt (c + 1) mc).1.getLast? = some m →
      (0 ≤ (stateAt c a pmt).calculate_new_balance
          (calculate_principal_paid pmt (stateAt c a pmt).calculate_interest_due) →
        m.present_value = 0) ∧
      ((stateAt c a pmt).calculate_new_balance
          (calculate_principal_paid pmt (stateAt c a pmt).calculate_interest_due) < 0 →
        m.present_value = (stateAt c a pmt).calculate_new_balance
          (calculate_principal_paid pmt (stateAt c a pmt).calculate_interest_due)) := by
  intro m hm
  set s := stateAt c a pmt with hs
  set mi := s.calculate_interest_due with hmidef
  have hmiC : IsCents mi := quantize2_isCents _
  have hpp : calculate_principal_paid pmt mi = pmt - mi :=
    calculate_principal_paid_exact hpmt hmiC (by linarith) (by linarith)
  have htent : s.calculate_new_balance (calculate_principal_paid pmt mi)
      = s.pv - (pmt - mi) := by
    rw [hpp]
    exact calculate_new_balance_exact hpv (hpmt.sub hmiC) (by linarith)
      (by have := abs_sub_le_sum pmt mi; linarith)
  rw [scheduleLoop_getLast_step c a pmt mc] at hm
  have hm' := Option.some.inj hm
  obtain ⟨hint, hif⟩ := periodStep_char s pmt true (mc + c) hpv hpmt hpvB hpmtB hmiB
  rw [hm'] at hif
  rw [htent]
  constructor
  · intro h0
    by_cases hpos : 0 < s.pv - (pmt - mi)
    · have hcond : (((true : Bool)) : Prop) ∧ 0 < s.pv - (pmt - mi) := ⟨rfl, hpos⟩
      rw [if_pos hcond] at hif
      exact hif.2.2
    · have h0' : s.pv - (pmt - mi) = 0 := le_antisymm (not_lt.mp hpos) h0
      have hcond : ¬ ((((true : Bool)) : Prop) ∧ 0 < s.pv - (pmt - mi)) := by
        intro hco
        exact absurd hco.2 (by rw [h0']; norm_num)
      rw [if_neg hcond] at hif
      rw [hif.2.2, h0']
  · intro hneg
    have hcond : ¬ ((((true : Bool)) : Prop) ∧ 0 < s.pv - (pmt - mi)) := by
      intro hco
      exact absurd hco.2 (by linarith)
    rw [if_neg hcond] at hif
    exact hif.2.2

/-- Witness for the amended C1: on the concrete two-period run `wit0` the
tentative final balance is the positive residual `+0.01`, and the last
period's `balance_after` is exactly zero. -/
theorem c1_amended_witness :
    0 ≤ (stateAt 1 wit0 (507512/100)).calculate_new_balance
        (calculate_principal_paid (507512/100)
          (stateAt 1 wit0 (507512/100)).calculate_interest_due) ∧
    (⟨507513/100, 201/4, 502488/100, 0, ⟨2020, 2, 1⟩⟩ : Month).present_value = 0 := by
  refine ⟨by with_unfolding_all decide, ?_⟩
  refine (c1_amended wit0 (507512/100) 1 0
    ⟨502488, by with_unfolding_all rfl⟩ ⟨507512, by norm_num⟩
    (by with_unfolding_all decide) (by with_unfolding_all decide)
    (by with_unfolding_all decide)
    ⟨507513/100, 201/4, 502488/100, 0, ⟨2020, 2, 1⟩⟩
    (by with_unfolding_all rfl)).1 (by with_unfolding_all decide)

/-- C2: for every run whose quantities stay within `10^20` (every realistic
loan; beyond `10^26` the real program would raise rather than produce rows),
every period row satisfies `payment = interest + principal_paid` as an exact
fixed-point identity — the corrected final period included — and each row's
`balance_after` equals the balance before that period minus that period's
`principal_paid` (chained from the initial present value). -/
theorem c2_invariants (a : Amoritize) (pmt0 : ℚ)
    (hp : a.calculate_pmt = some pmt0)
    (hpv : IsCents a.pv) (hpvB : |a.pv| ≤ 10 ^ 20) (hpmtB : |pmt0| ≤ 10 ^ 20)
    (hB : ∀ m ∈ a.scheduleTrace pmt0,
      |m.payment| ≤ 10 ^ 20 ∧ |m.interest| ≤ 10 ^ 20 ∧ |m.present_value| ≤ 10 ^ 20) :
    (∀ m ∈ a.scheduleTrace pmt0, m.payment = m.interest + m.principal_paid) ∧
    List.Chain (fun u v => v.present_value = u.present_value - v.principal_paid)
      (pseudoMonth a.pv) (a.scheduleTrace pmt0) :=
  scheduleLoop_identities a.n.toNat a pmt0 0 hpv
    (calculate_pmt_isCents a pmt0 hp) hpvB hpmtB hB

/-- Witness for C2 on the concrete two-period run `wit0` (whose final period
is the corrected one). -/
theorem c2_invariants_witness :
    (∀ m ∈ wit0.scheduleTrace (507512/100), m.payment = m.interest + m.principal_paid) ∧
    List.Chain (fun u v => v.present_value = u.present_value - v.principal_paid)
      (pseudoMonth wit0.pv) (wit0.scheduleTrace (507512/100)) :=
  c2_invariants wit0 (507512/100) (by with_unfolding_all rfl)
    ⟨1000000, by with_unfolding_all rfl⟩ (by with_unfolding_all decide)
    (by with_unfolding_all decide) (by with_unfolding_all decide)

/-- C6, counterexample: on `wit0` the correction fires (residual `+0.01`), so
the response's `monthly_payment` is the corrected final payment `5075.13`,
not the nominal level payment `5075.12` computed by `calculate_pmt` — the
source returns the mutated `pmt` variable. -/
theorem c6_counterexample :
    wit0.calculate_pmt = some (507512/100) ∧
    wit0.schedule.map (fun p => p.1.monthly_payment) = some (507513/100) ∧
    (507512/100 : ℚ) ≠ (507513/100 : ℚ) := by
  refine ⟨by with_unfolding_all rfl, by with_unfolding_all rfl, by norm_num⟩

/-- C6 (amended): every period except possibly the last records the nominal
level payment computed by `calculate_pmt`, but the response's
`monthly_payment` equals the *last* period's payment — i.e. the corrected
final payment whenever the correction fired, not the nominal level payment. -/
theorem c6_amended (a : Amoritize) (r : Response) (s : Amoritize) (pmt0 : ℚ)
    (hp : a.calculate_pmt = some pmt0) (hs : a.schedule = some (r, s)) :
    (∀ (i : ℕ) (m : Month), i + 1 < a.n.toNat →
      (a.scheduleTrace pmt0).get? i = some m → m.payment = pmt0) ∧
    (∀ m : Month, (a.scheduleTrace pmt0).getLast? = some m →
      r.monthly_payment = m.payment) := by
  obtain ⟨hr, _⟩ := schedule_some_elim a r s pmt0 hp hs
  refine ⟨?_, ?_⟩
  · intro i m hi hm
    exact scheduleLoop_payment a.n.toNat a pmt0 0 i m hi hm
  · intro m hm
    rw [hr]
    exact scheduleLoop_getLast_payment a.n.toNat a pmt0 0 m hm

/-- Witness for the amended C6 on `wit0`: the first period records the
nominal `5075.12` and the response's `monthly_payment` equals the last
period's (corrected) payment. -/
theorem c6_amended_witness :
    (∀ (i : ℕ) (m : Month), i + 1 < wit0.n.toNat →
      (wit0.scheduleTrace (507512/100)).get? i = some m → m.payment = 507512/100) ∧
    (∀ m : Month, (wit0.scheduleTrace (507512/100)).getLast? = some m →
      wit0r.monthly_payment = m.payment) :=
  c6_amended wit0 wit0r wit0s (507512/100) (by with_unfolding_all rfl)
    (by with_unfolding_all rfl)

/-- C7, counterexample: invoking `schedule()` a second time on the same
instance does not reproduce the first result — the first call returns
`monthly_payment = 5075.13`, the second (starting from the mutated
`pv = 0` and accumulated `total_interest`) returns `monthly_payment = 0`. -/
theorem c7_counterexample :
    wit0.schedule.map (fun p => p.1.monthly_payment) = some (507513/100) ∧
    (wit0.schedule.bind (fun p => p.2.schedule)).map (fun p => p.1.monthly_payment)
      = some 0 ∧
    (507513/100 : ℚ) ≠ 0 := by
  refine ⟨by with_unfolding_all rfl, by with_unfolding_all rfl, by norm_num⟩

/-- C7 (amended): the engine is deterministic — equal instances give equal
results — and a `schedule()` call leaves `bal`, `apr`, `n`, `mpr`, `dpr` and
the start date unchanged; but `pv` and `total_interest` do survive the call
mutated (see the counterexample: a second call on the same instance returns a
different response). -/
theorem c7_amended :
    (∀ x y : Amoritize, x = y → x.schedule = y.schedule) ∧
    (∀ (a : Amoritize) (r : Response) (s : Amoritize) (pmt0 : ℚ),
      a.calculate_pmt = some pmt0 → a.schedule = some (r, s) →
      s.bal = a.bal ∧ s.apr = a.apr ∧ s.n = a.n ∧ s.mpr = a.mpr ∧
      s.dpr = a.dpr ∧ s.date = a.date) := by
  refine ⟨fun x y h => by rw [h], ?_⟩
  intro a r s pmt0 hp hs
  obtain ⟨_, hs'⟩ := schedule_some_elim a r s pmt0 hp hs
  rw [hs']
  exact scheduleLoop_preserves a.n.toNat a pmt0 0

/-- Witness for the amended C7 on `wit0`: the post-call state keeps the
constructor fields of the instance. -/
theorem c7_amended_witness :
    wit0s.bal = wit0.bal ∧ wit0s.apr = wit0.apr ∧ wit0s.n = wit0.n ∧
    wit0s.mpr = wit0.mpr ∧ wit0s.dpr = wit0.dpr ∧ wit0s.date = wit0.date :=
  c7_amended.2 wit0 wit0r wit0s (507512/100) (by with_unfolding_all rfl)
    (by with_unfolding_all rfl)

/-- C10: whenever the final-period correction fires (last period, tentative
updated balance strictly positive) on bounded cent quantities, the recorded
interest is exactly the value computed from the pre-correction balance, and
the recorded payment and principal each exceed their tentative values by
exactly the residual. -/
theorem c10_correction (a : Amoritize) (pmt : ℚ) (mc : ℕ)
    (hpv : IsCents a.pv) (hpmt : IsCents pmt)
    (hpvB : |a.pv| ≤ 10 ^ 20) (hpmtB : |pmt| ≤ 10 ^ 20)
    (hmiB : |a.calculate_interest_due| ≤ 10 ^ 20)
    (hpos : 0 < a.calculate_new_balance
      (calculate_principal_paid pmt a.calculate_interest_due)) :
    (periodStep a pmt true mc).1.interest = a.calculate_interest_due ∧
    (periodStep a pmt true mc).1.payment
      = pmt + a.calculate_new_balance
          (calculate_principal_paid pmt a.calculate_interest_due) ∧
    (periodStep a pmt true mc).1.principal_paid
      = calculate_principal_paid pmt a.calculate_interest_due
        + a.calculate_new_balance
            (calculate_principal_paid pmt a.calculate_interest_due) := by
  set mi := a.calculate_interest_due with hmidef
  have hmiC : IsCents mi := quantize2_isCents _
  have hpp : calculate_principal_paid pmt mi = pmt - mi :=
    calculate_principal_paid_exact hpmt hmiC (by linarith) (by linarith)
  have htent : a.calculate_new_balance (calculate_principal_paid pmt mi)
      = a.pv - (pmt - mi) := by
    rw [hpp]
    exact calculate_new_balance_exact hpv (hpmt.sub hmiC) (by linarith)
      (by have := abs_sub_le_sum pmt mi; linarith)
  obtain ⟨hint, hif⟩ := periodStep_char a pmt true mc hpv hpmt hpvB hpmtB hmiB
  have hcond : (((true : Bool)) : Prop) ∧ 0 < a.pv - (pmt - mi) := by
    refine ⟨rfl, ?_⟩
    rw [← htent]
    exact hpos
  rw [if_pos hcond] at hif
  rw [htent, hpp]
  exact ⟨hint, hif.1, hif.2.1⟩

/-- Witness for C10: the last period of `wit0` (pre-state `pv = 5024.88`,
nominal payment `5075.12`) has positive residual `+0.01`; interest stays
`50.25` while payment and principal both grow by exactly `0.01`. -/
theorem c10_correction_witness :
    0 < (stateAt 1 wit0 (507512/100)).calculate_new_balance
        (calculate_principal_paid (507512/100)
          (stateAt 1 wit0 (507512/100)).calculate_interest_due) ∧
    ((periodStep (stateAt 1 wit0 (507512/100)) (507512/100) true 1).1.interest
        = (stateAt 1 wit0 (507512/100)).calculate_interest_due ∧
      (periodStep (stateAt 1 wit0 (507512/100)) (507512/100) true 1).1.payment
        = 507512/100 + (stateAt 1 wit0 (507512/100)).calculate_new_balance
            (calculate_principal_paid (507512/100)
              (stateAt 1 wit0 (507512/100)).calculate_interest_due) ∧
      (periodStep (stateAt 1 wit0 (507512/100)) (507512/100) true 1).1.principal_paid
        = calculate_principal_paid (507512/100)
              (stateAt 1 wit0 (507512/100)).calculate_interest_due
          + (stateAt 1 wit0 (507512/100)).calculate_new_balance
              (calculate_principal_paid (507512/100)
                (stateAt 1 wit0 (507512/100)).calculate_interest_due)) := by
  refine ⟨by with_unfolding_all decide, ?_⟩
  exact c10_correction (stateAt 1 wit0 (507512/100)) (507512/100) 1
    ⟨502488, by with_unfolding_all rfl⟩ ⟨507512, by norm_num⟩
    (by with_unfolding_all decide) (by with_unfolding_all decide)
    (by with_unfolding_all decide) (by with_unfolding_all decide)

/-- C8: for principal `32397.75`, annual rate `0.10313`, 39 periods, the
nominal payment is `981.22`; the final period row is exactly
`payment = 981.28`, `interest = 8.36`, `principal_paid = 972.92`,
`balance_after = 0.00`; the accumulated `total_interest` is exactly
`5869.89`, and the response carries its exact binary64 image. -/
theorem c8_fixture :
    fixA.calculate_pmt = some (98122/100) ∧
    (fixA.scheduleTrace (98122/100)).getLast?
      = some ⟨98128/100, 836/100, 97292/100, 0, ⟨2022, 9, 1⟩⟩ ∧
    (scheduleLoop fixA (98122/100) 39 0).2.1.total_interest = 586989/100 ∧
    fixA.schedule.map (fun p => p.1.total_interest) = some (pyFloat (586989/100)) := by
  refine ⟨by with_unfolding_all rfl, by with_unfolding_all rfl,
    by with_unfolding_all rfl, by with_unfolding_all rfl⟩

/-- C9: with a start date every period `i` is dated `start_date + i` months;
concretely for principal `32397.75`, rate `0.065`, 39 periods starting
2019-07-01, the first period is dated 2019-07-01 and the thirteenth
2020-07-01; the decimal total interest is exactly `3629.73`, the decimal
addition `balance + total_interest` is exact (no rounding), and the
response's `total_cost` is the exact binary64 image of that exact sum. -/
theorem c9_fixture :
    (∀ (i : ℕ) (m : Month), (fixB.scheduleTrace (92378/100)).get? i = some m →
      m.date = addMonths ⟨2019, 7, 1⟩ i) ∧
    fixB.calculate_pmt = some (92378/100) ∧
    ((fixB.scheduleTrace (92378/100)).get? 0).map (fun m => m.date)
      = some ⟨2019, 7, 1⟩ ∧
    ((fixB.scheduleTrace (92378/100)).get? 12).map (fun m => m.date)
      = some ⟨2020, 7, 1⟩ ∧
    (scheduleLoop fixB (92378/100) 39 0).2.1.total_interest = 362973/100 ∧
    decAdd fixB.bal (362973/100) = fixB.bal + 362973/100 ∧
    fixB.schedule.map (fun p => p.1.total_cost)
      = some (pyFloat (fixB.bal + 362973/100)) := by
  refine ⟨?_, by with_unfolding_all rfl, by with_unfolding_all rfl,
    by with_unfolding_all rfl, by with_unfolding_all rfl,
    by with_unfolding_all rfl, by with_unfolding_all rfl⟩
  intro i m hm
  have h := scheduleLoop_date fixB.n.toNat fixB (92378/100) 0 i m hm
  rw [Nat.zero_add] at h
  exact h

/-- Witness for C9: instantiating the date-advancement clause at the
thirteenth period (index 12). -/
theorem c9_fixture_witness :
    (⟨92378/100, 12537/100, 79841/100, 2234742/100, ⟨2020, 7, 1⟩⟩ : Month).date
      = addMonths ⟨2019, 7, 1⟩ 12 :=
  c9_fixture.1 12 ⟨92378/100, 12537/100, 79841/100, 2234742/100, ⟨2020, 7, 1⟩⟩
    (by with_unfolding_all rfl)
